import Mathlib

/-!
Verification of the waveform binary encoder and attribute-cache discipline of
the python-ivi instrument drivers (tektronixAWG5000.py, agilentBaseS.py).

The drivers are shallowly embedded: Python byte strings become lists of
naturals below 256, numpy float arrays become lists of rationals, driver
object state becomes explicit state records, instrument transport writes and
queries become logs inside the state, and Python exceptions become an
explicit error type threaded through Except.  Parts of the repository that
the three source files call but that are not under src (the ivi.py transport
and cache helpers, the fgen constant tables) are modelled from the spec and
marked as such in their doc comments.
-/

namespace PyIvi

/-- Python slice l[a:b] on a list. -/
def pySlice (l : List α) (a b : ℕ) : List α := (l.drop a).take (b - a)

/-- Little-endian 4-byte encoding of a 32-bit word, as tobytes produces on a
little-endian host. -/
def leBytes4 (n : ℕ) : List ℕ :=
  [n % 256, n / 256 % 256, n / 256 ^ 2 % 256, n / 256 ^ 3 % 256]

/-- Read a 4-byte little-endian sequence back into a word. -/
def byteWord (l : List ℕ) : ℕ :=
  l.getD 0 0 + 256 * (l.getD 1 0 + 256 * (l.getD 2 0 + 256 * l.getD 3 0))

/-- Round a rational to the nearest integer, ties to even; the rounding mode
of the IEEE-754 conversions performed by numpy astype(float32). -/
def roundHalfEven (q : ℚ) : ℤ :=
  if q - ⌊q⌋ < 1 / 2 then ⌊q⌋
  else if 1 / 2 < q - ⌊q⌋ then ⌊q⌋ + 1
  else if ⌊q⌋ % 2 = 0 then ⌊q⌋ else ⌊q⌋ + 1

/-- Exponent search for the binary32 conversion: starting at exponent -j with
r candidates left, return the largest e in [-126, 0] with 2 ^ e ≤ m, or -126
when m is below the normal range. -/
def f32expAux (m : ℚ) : ℕ → ℕ → ℤ
  | _, 0 => -126
  | j, r + 1 => if (2 : ℚ) ^ (-(j : ℤ)) ≤ m then -(j : ℤ) else f32expAux m (j + 1) r

/-- Binary32 exponent of a magnitude in (0, 1]. -/
def f32exp (m : ℚ) : ℤ := f32expAux m 0 127

/-- Bit pattern of the IEEE-754 binary32 value nearest to q (ties to even),
for |q| ≤ 1; models the numpy astype(float32) cast applied to the clipped
samples.  Sign in bit 31, biased exponent in bits 23-30, fraction below. -/
def toF32bits (q : ℚ) : ℕ :=
  if q = 0 then 0
  else
    let s : ℕ := if q < 0 then 1 else 0
    let m : ℚ := |q|
    let e : ℤ := f32exp m
    let mant : ℤ := roundHalfEven (m * (2 : ℚ) ^ ((23 : ℤ) - e))
    if mant = 0 then s <<< 31
    else if mant < 2 ^ 23 then (s <<< 31) + mant.toNat
    else if mant < 2 ^ 24 then (s <<< 31) + ((e + 127).toNat <<< 23) + (mant.toNat - 2 ^ 23)
    else (s <<< 31) + ((e + 128).toNat <<< 23)

/-- Exact rational value of a binary32 bit pattern (finite range). -/
def decodeF32 (b : ℕ) : ℚ :=
  let s : ℕ := b / 2 ^ 31
  let e : ℕ := b / 2 ^ 23 % 256
  let f : ℕ := b % 2 ^ 23
  let mag : ℚ :=
    if e = 0 then (f : ℚ) * (2 : ℚ) ^ (-(149 : ℤ))
    else ((2 ^ 23 + f : ℕ) : ℚ) * (2 : ℚ) ^ ((e : ℤ) - 150)
  if s = 1 then -mag else mag

/-- The float32 rounding of a rational: encode to bits, then read the exact
value back.  This is the precision loss the spec calls float32 precision. -/
def f32val (q : ℚ) : ℚ := decodeF32 (toF32bits q)

/-- numpy clip(-1, 1) on one sample. -/
def clip1 (q : ℚ) : ℚ := min 1 (max (-1) q)

/-- numpy astype(bool): a numeric entry is truthy iff nonzero. -/
def truthy (q : ℚ) : Bool := decide (q ≠ 0)

/-- The marker byte stream of lines 496-503: absent marker-1 gives
bytes(len(y)); otherwise marker-1 is booleanized and shifted to bit 6,
marker-2 (when present) is booleanized, shifted to bit 7 and combined by
bitwise or, and the result is cast to uint8. -/
def markerBytes (n : ℕ) : Option (List ℚ) → Option (List ℚ) → List ℕ
  | none, _ => List.replicate n 0
  | some l1, m2 =>
    let sh1 := l1.map fun v => (if truthy v then 1 else 0) <<< 6
    let m := match m2 with
      | none => sh1
      | some l2 =>
        List.zipWith (fun a b => a ||| b) sh1
          (l2.map fun v => (if truthy v then 1 else 0) <<< 7)
    m.map (· % 256)

/-- Booleanized marker bit at one sample index: 0 when the marker stream is
absent, else 1 iff the marker entry is truthy. -/
def mBit (m : Option (List ℚ)) (i : ℕ) : ℕ :=
  match m with
  | none => 0
  | some l => if truthy (l.getD i 0) then 1 else 0

/-- Per-sample 4-byte float chunks: y.astype(float32).tobytes() viewed as a
list of 4-byte chunks (its flattening is the byte string). -/
def floatChunks (y : List ℚ) : List (List ℕ) := y.map fun s => leBytes4 (toF32bits s)

/-- The real-sample payload of lines 493-505: clip the samples, build the
float32 byte string and the marker byte string, then join, for each index ii,
raw_data[4*ii:4*(ii+1)] + marker[ii:ii+1]. -/
def encodeReal (y : List ℚ) (m1 m2 : Option (List ℚ)) : List ℕ :=
  let yc := y.map clip1
  let raw := (floatChunks yc).flatten
  let mk := markerBytes y.length m1 m2
  ((List.range y.length).map fun ii =>
    pySlice raw (4 * ii) (4 * (ii + 1)) ++ pySlice mk ii (ii + 1)).flatten

/-- Interleaved normal form of the payload: 4-byte chunk, then one marker
byte, per sample. -/
def interleave5 : List (List ℕ) → List ℕ → List ℕ
  | c :: cs, m :: ms => c ++ m :: interleave5 cs ms
  | _, _ => []

/-- The decoder of spec section 8: strip the control byte after each 4-byte
group and read the groups as little-endian floats. -/
def deinterleave : List ℕ → List ℚ
  | b0 :: b1 :: b2 :: b3 :: _ :: rest =>
    decodeF32 (byteWord [b0, b1, b2, b3]) :: deinterleave rest
  | _ => []

/-- Python exceptions raised by the modelled code paths.  valueNotSupported
carries the optional message passed to ivi.ValueNotSupportedException;
invalidOptionValue models ivi.InvalidOptionValueException; indexError,
typeError and attributeError model the built-in exceptions escaping from
data[0] on an empty list, len(None), and the missing struct.data attribute;
allocFailed is the out-of-fuel case of the handle loop, proven unreachable. -/
inductive Err where
  | valueNotSupported (msg : Option String)
  | invalidOptionValue (msg : String)
  | unknownPhysicalName
  | indexError
  | typeError
  | attributeError
  | allocFailed
  deriving DecidableEq

/-- The integer branch of lines 518-522: each loop iteration evaluates
struct.data, an attribute the struct module does not have, so the first
iteration raises AttributeError; only an empty input survives the loop. -/
def encInt : List ℚ → Except Err (List ℕ)
  | [] => .ok []
  | _ :: _ => .error .attributeError

/-- Inputs to _arbitrary_waveform_create: a Python list of floats, a 1-D
ndarray, or a 2-D ndarray of shape r x c with entries given positionally
(rectangular by construction).  isInt records an integer dtype. -/
inductive PyData where
  | floatList (l : List ℚ)
  | nd1 (isInt : Bool) (v : List ℚ)
  | nd2 (isInt : Bool) (r c : ℕ) (f : ℕ → ℕ → ℚ)

/-- Row i of a 2-D array. -/
def ndRow (c : ℕ) (f : ℕ → ℕ → ℚ) (i : ℕ) : List ℚ := (List.range c).map (f i)

/-- Column j of a 2-D array. -/
def ndCol (r : ℕ) (f : ℕ → ℕ → ℚ) (j : ℕ) : List ℚ := (List.range r).map (f · j)

/-- The sample/marker role resolution of lines 435-474: a float list is all
samples (data[0] raises IndexError when empty), a 1-D array is all samples,
and a 2-D array is tested against the shapes (1,n), (n,1), (2,n), (n,2),
(3,n), (n,3) in that order; any other 2-D shape assigns no role (y stays
None).  The last component records the int dtype (data_type of line 439-445). -/
def resolveRoles :
    PyData → Except Err (Option (List ℚ) × Option (List ℚ) × Option (List ℚ) × Bool)
  | .floatList [] => .error .indexError
  | .floatList (x :: xs) => .ok (some (x :: xs), none, none, false)
  | .nd1 isInt v => .ok (some v, none, none, isInt)
  | .nd2 isInt r c f =>
    if r = 1 then .ok (some (ndRow c f 0), none, none, isInt)
    else if c = 1 then .ok (some (ndCol r f 0), none, none, isInt)
    else if r = 2 then .ok (some (ndRow c f 0), some (ndRow c f 1), none, isInt)
    else if c = 2 then .ok (some (ndCol r f 0), some (ndCol r f 1), none, isInt)
    else if r = 3 then .ok (some (ndRow c f 0), some (ndRow c f 1), some (ndRow c f 2), isInt)
    else if c = 3 then .ok (some (ndCol r f 0), some (ndCol r f 1), some (ndCol r f 2), isInt)
    else .ok (none, none, none, isInt)

/-- Base-10 digits of n, little endian, by repeated division (fuel-indexed so
the kernel can evaluate it). -/
def natDigitsAux : ℕ → ℕ → List ℕ
  | 0, _ => []
  | _ + 1, 0 => []
  | fuel + 1, n + 1 => ((n + 1) % 10) :: natDigitsAux fuel ((n + 1) / 10)

/-- Base-10 digits of n, little endian; empty for 0. -/
def natDigits (n : ℕ) : List ℕ := natDigitsAux n n

/-- Value of a little-endian digit list. -/
def fromDigits : List ℕ → ℕ
  | [] => 0
  | d :: ds => d + 10 * fromDigits ds

/-- Zero-pad a little-endian digit list to at least four digits, as the
Python format %04d does. -/
def pad4 (ds : List ℕ) : List ℕ := ds ++ List.replicate (4 - ds.length) 0

/-- Decimal digit to its character. -/
def digitChar (d : ℕ) : Char := Char.ofNat (48 + d)

/-- The handle name of line 484: wfm followed by the counter zero-padded to
four digits. -/
def fmtWfm (n : ℕ) : String :=
  ⟨'w' :: 'f' :: 'm' :: ((pad4 (natDigits n)).reverse.map digitChar)⟩

/-- The handle-allocation loop of lines 481-485: increment the counter, form
the candidate name and retry while it is in the catalog.  fuel bounds the
iterations; one more than the catalog size is proven sufficient. -/
def allocHandle : ℕ → List String → ℕ → Option (String × ℕ)
  | 0, _, _ => none
  | fuel + 1, catalog, n =>
    let handle := fmtWfm (n + 1)
    if handle ∈ catalog then allocHandle fuel catalog (n + 1) else some (handle, n + 1)

/-- Structured ASCII commands written to the AWG transport; each constructor
stands for one command template of the driver. -/
inductive Cmd where
  | wfmNew (handle : String) (size : ℕ) (isInt : Bool)
  | wfmDelete (handle : String)
  | awgcStop
  | awgcRun
  | outputState (ch : ℕ) (v : Bool)
  | rmodeSeq
  | rmodeCont
  | sourceWaveform (ch : ℕ) (handle : String)
  | triggerSlope (v : String)
  deriving DecidableEq

/-- Driver plus instrument-side state for the AWG5000 model.  instrWfms is
the waveform list resident on the instrument, instrRMode the response the
instrument would give to the run-mode query; writes, blockWrites and asks
log the transport traffic (a block write carries handle, start index, size
and payload). -/
structure AwgState where
  simulate : Bool
  quantum : ℕ
  sizeMin : ℕ
  sizeMax : ℕ
  outputCount : ℕ
  instrWfms : List String
  instrRMode : String
  wfmCatalog : List String
  arbitraryWaveformN : ℕ
  outputEnabled : List Bool
  outputMode : List String
  outputArbitraryWaveform : List String
  cacheValid : List (String × ℕ)
  writes : List Cmd
  blockWrites : List (String × ℕ × ℕ × List ℕ)
  asks : List String
  deriving DecidableEq

/-- Instrument reaction to a command: waveform-new and waveform-delete keep
the resident waveform list in sync, other commands leave it unchanged. -/
def applyCmdInstr (wfms : List String) : Cmd → List String
  | .wfmNew h _ _ => wfms ++ [h]
  | .wfmDelete h => wfms.erase h
  | _ => wfms

/-- Modelled from the spec: the transport write of section 6 (ivi.py is not
under src).  The command is issued on the transport and the instrument
reacts; in simulate mode there is no instrument to react. -/
def doWrite (st : AwgState) (c : Cmd) : AwgState :=
  { st with
    writes := st.writes ++ [c]
    instrWfms := if st.simulate then st.instrWfms else applyCmdInstr st.instrWfms c }

/-- _load_wfm_catalog of lines 218-229: reset the cached catalog, and when
not simulating query the size and each name from the instrument. -/
def loadWfmCatalog (st : AwgState) : AwgState :=
  if st.simulate then { st with wfmCatalog := [] }
  else
    { st with
      wfmCatalog := st.instrWfms
      asks := st.asks ++ ["wlist:size?"] ++ st.instrWfms.map fun _ => "wlist:name?" }

/-- Modelled from the spec: per-attribute, per-index cache validity flags
(section 4.1; the flag store lives in ivi.py, not under src).  A key is
valid iff present in the list. -/
def getCV (cv : List (String × ℕ)) (tag : String) (i : ℕ) : Bool :=
  decide ((tag, i) ∈ cv)

/-- Modelled from the spec: mark a cache key valid (insert if absent) or
invalid (remove). -/
def setCV (cv : List (String × ℕ)) (valid : Bool) (tag : String) (i : ℕ) :
    List (String × ℕ) :=
  if valid then if (tag, i) ∈ cv then cv else cv ++ [(tag, i)]
  else cv.erase (tag, i)

/-- Python str.lower on the ASCII strings the drivers handle. -/
def pyLower (s : String) : String := ⟨s.data.map Char.toLower⟩

/-- _arbitrary_waveform_create of lines 435-528: resolve roles, check the
length against the quantum, reload the catalog, allocate a fresh handle,
issue the waveform-new command, encode the payload (real or integer branch)
and transmit it as a binary block. -/
def create (st : AwgState) (d : PyData) : Except Err String × AwgState :=
  match resolveRoles d with
  | .error e => (.error e, st)
  | .ok (yOpt, m1, m2, isInt) =>
    match yOpt with
    | none => (.error .typeError, st)
    | some y =>
      if y.length % st.quantum ≠ 0 then (.error (.valueNotSupported none), st)
      else
        let st1 := loadWfmCatalog st
        match allocHandle (st1.wfmCatalog.length + 1) st1.wfmCatalog st1.arbitraryWaveformN with
        | none => (.error .allocFailed, st1)
        | some (handle, n) =>
          let st2 := { st1 with arbitraryWaveformN := n }
          let st3 := doWrite st2 (.wfmNew handle y.length isInt)
          if isInt then
            match encInt y with
            | .error e => (.error e, st3)
            | .ok payload =>
              (.ok handle,
               { st3 with blockWrites := st3.blockWrites ++ [(handle, 0, y.length, payload)] })
          else
            let payload := encodeReal y m1 m2
            (.ok handle,
             { st3 with blockWrites := st3.blockWrites ++ [(handle, 0, y.length, payload)] })

/-- Iterate waveform creation n times on an empty real sample sequence,
collecting the returned handles. -/
def createIter (st : AwgState) : ℕ → List String × AwgState
  | 0 => ([], st)
  | n + 1 =>
    match create st (.nd1 false []) with
    | (.ok h, st1) =>
      let (hs, st2) := createIter st1 n
      (h :: hs, st2)
    | (.error _, st1) => ([], st1)

/-- _abort_generation of lines 340-341: writes AWGC:STOP unconditionally,
with no simulate guard. -/
def abortGeneration (st : AwgState) : AwgState := doWrite st .awgcStop

/-- _arbitrary_waveform_clear of lines 425-432: reload the catalog, raise
InvalidOptionValueException when the handle is absent, else issue the delete
command (also issued without a simulate guard). -/
def arbitraryWaveformClear (st : AwgState) (handle : String) :
    Except Err Unit × AwgState :=
  let st1 := loadWfmCatalog st
  if handle ∈ st1.wfmCatalog then (.ok (), doWrite st1 (.wfmDelete handle))
  else (.error (.invalidOptionValue handle), st1)

/-- _set_output_enabled of lines 274-280: booleanize, write when not
simulating, store the value and mark the indexed entry valid. -/
def setOutputEnabled (st : AwgState) (i : ℕ) (v : Bool) : AwgState :=
  let st1 := if st.simulate then st else doWrite st (.outputState i v)
  let st2 := { st1 with outputEnabled := st1.outputEnabled.set i v }
  { st2 with cacheValid := setCV st2.cacheValid true "output_enabled" i }

/-- _set_output_arbitrary_waveform of lines 388-397: lowercase the name,
reload the catalog, reject names not in it, write when not simulating and
store the value; no cache-valid call follows. -/
def setOutputArbitraryWaveform (st : AwgState) (i : ℕ) (v : String) :
    Except Err Unit × AwgState :=
  let v := pyLower v
  let st1 := loadWfmCatalog st
  if v ∉ st1.wfmCatalog then (.error (.valueNotSupported none), st1)
  else
    let st2 := if st1.simulate then st1 else doWrite st1 (.sourceWaveform i v)
    (.ok (), { st2 with outputArbitraryWaveform := st2.outputArbitraryWaveform.set i v })

/-- Modelled from the spec: the enumerated legal output modes of the fgen
capability tables (fgen.py is not under src; section 4.3 prescribes
validation against an enumerated legal set). -/
def legalOutputModes : List String := ["function", "arbitrary", "sequence"]

/-- _set_output_mode of lines 303-318: validate, reject function mode, write
the run-mode command when not simulating, store the value, invalidate the
output-mode entry of every channel, then mark the written channel valid. -/
def setOutputMode (st : AwgState) (i : ℕ) (v : String) :
    Except Err Unit × AwgState :=
  if v ∉ legalOutputModes then (.error (.valueNotSupported none), st)
  else if v = "function" then (.error (.valueNotSupported none), st)
  else
    let st1 :=
      if st.simulate then st
      else doWrite st (if v = "sequence" then .rmodeSeq else .rmodeCont)
    let st2 := { st1 with outputMode := st1.outputMode.set i v }
    let st3 :=
      { st2 with
        cacheValid :=
          (List.range st2.outputCount).foldl
            (fun cv k => setCV cv false "output_mode" k) st2.cacheValid }
    (.ok (), { st3 with cacheValid := setCV st3.cacheValid true "output_mode" i })

/-- _get_output_mode of lines 292-301: on a cache miss outside simulation,
query the run mode, map seq to sequence and anything else to arbitrary,
store it and mark the entry valid; otherwise answer from the cache. -/
def getOutputMode (st : AwgState) (i : ℕ) : String × AwgState :=
  if ¬st.simulate ∧ ¬(getCV st.cacheValid "output_mode" i = true) then
    let v := if pyLower st.instrRMode = "seq" then "sequence" else "arbitrary"
    let st1 :=
      { st with
        outputMode := st.outputMode.set i v
        asks := st.asks ++ [":awgcontrol:rmode?"]
        cacheValid := setCV st.cacheValid true "output_mode" i }
    (st1.outputMode.getD i "", st1)
  else (st.outputMode.getD i "", st)

/-- _arbitrary_waveform_create_channel_waveform_int16 of lines 653-657 (and
the int32 twin of lines 659-663): create the waveform, then assign it to the
output channel. -/
def createChannelWaveformInt16 (st : AwgState) (i : ℕ) (d : PyData) :
    Except Err String × AwgState :=
  match create st d with
  | (.error e, st1) => (.error e, st1)
  | (.ok h, st1) =>
    match setOutputArbitraryWaveform st1 i h with
    | (.error e, st2) => (.error e, st2)
    | (.ok _, st2) => (.ok h, st2)

/-- Structured commands written to the oscilloscope transport. -/
inductive SCmd where
  | chanInput (ch : ℕ) (v : String)
  deriving DecidableEq

/-- Oscilloscope driver state for the agilentBaseS channel model.  instrInput
holds the response the instrument would give to the per-channel input query. -/
structure ScopeState where
  simulate : Bool
  analogChannelCount : ℕ
  channelInputImpedance : List ℕ
  channelCoupling : List String
  instrInput : List String
  cacheValid : List (String × ℕ)
  writes : List SCmd
  asks : List String
  deriving DecidableEq

/-- The dedicated message of the unsupported 50-ohm/AC combination. -/
def acMsg : String := "AC coupling not supported for 50 Ohm input impedance."

/-- _get_channel_coupling of lines 252-261: on a cache miss outside
simulation, query the channel input setting, map dc variants to dc and the
rest to ac, store and mark valid; otherwise answer from the cache. -/
def getChannelCoupling (st : ScopeState) (i : ℕ) : String × ScopeState :=
  if ¬st.simulate ∧ ¬(getCV st.cacheValid "channel_coupling" i = true) then
    let s := pyLower (st.instrInput.getD i "")
    let v := if s = "dc" ∨ s = "dc50" ∨ s = "dcfifty" then "dc" else "ac"
    let st1 :=
      { st with
        channelCoupling := st.channelCoupling.set i v
        asks := st.asks ++ [":input?"]
        cacheValid := setCV st.cacheValid true "channel_coupling" i }
    (st1.channelCoupling.getD i "", st1)
  else (st.channelCoupling.getD i "", st)

/-- _get_channel_input_impedance of lines 221-230: on a cache miss outside
simulation, query the channel input setting, map dc50 variants to 50 and the
rest to 1000000, store and mark valid; otherwise answer from the cache. -/
def getChannelInputImpedance (st : ScopeState) (i : ℕ) : ℕ × ScopeState :=
  if ¬st.simulate ∧ ¬(getCV st.cacheValid "channel_input_impedance" i = true) then
    let s := pyLower (st.instrInput.getD i "")
    let v := if s = "dc50" ∨ s = "dcfifty" then 50 else 1000000
    let st1 :=
      { st with
        channelInputImpedance := st.channelInputImpedance.set i v
        asks := st.asks ++ [":input?"]
        cacheValid := setCV st.cacheValid true "channel_input_impedance" i }
    (st1.channelInputImpedance.getD i 0, st1)
  else (st.channelInputImpedance.getD i 0, st)

/-- _set_channel_input_impedance of lines 232-250: validate the value,
obtain the coupling, reject 50 ohm with AC coupling before any write, else
write the combined setting, store the value and mark valid. -/
def setChannelInputImpedance (st : ScopeState) (i : ℕ) (v : ℕ) :
    Except Err Unit × ScopeState :=
  if v ≠ 50 ∧ v ≠ 1000000 then (.error (.valueNotSupported none), st)
  else
    match getChannelCoupling st i with
    | (coupling, st1) =>
      if v = 50 ∧ coupling = "ac" then (.error (.valueNotSupported (some acMsg)), st1)
      else
        let st2 :=
          if st1.simulate then st1
          else
            let tv := if coupling = "dc" then (if v = 50 then "dc50" else "dc") else "ac"
            { st1 with writes := st1.writes ++ [.chanInput i tv] }
        let st3 := { st2 with channelInputImpedance := st2.channelInputImpedance.set i v }
        (.ok (), { st3 with cacheValid := setCV st3.cacheValid true "channel_input_impedance" i })

/-- _set_channel_coupling of lines 263-281: validate the value, obtain the
impedance, reject AC coupling at 50 ohm before any write, else write the
combined setting, store the value and mark valid. -/
def setChannelCoupling (st : ScopeState) (i : ℕ) (v : String) :
    Except Err Unit × ScopeState :=
  if v ≠ "ac" ∧ v ≠ "dc" then (.error (.valueNotSupported none), st)
  else
    match getChannelInputImpedance st i with
    | (impedance, st1) =>
      if impedance = 50 ∧ v = "ac" then (.error (.valueNotSupported (some acMsg)), st1)
      else
        let st2 :=
          if st1.simulate then st1
          else
            let tv := if v = "dc" then (if impedance = 50 then "dc50" else "dc") else "ac"
            { st1 with writes := st1.writes ++ [.chanInput i tv] }
        let st3 := { st2 with channelCoupling := st2.channelCoupling.set i v }
        (.ok (), { st3 with cacheValid := setCV st3.cacheValid true "channel_coupling" i })

/-- A fresh non-simulated AWG state with the configured constants of the
driver constructor (quantum 1, size bounds 1 and 16M, two outputs) and an
empty instrument. -/
def awg0 : AwgState :=
  { simulate := false
    quantum := 1
    sizeMin := 1
    sizeMax := 16 * 1024 * 1024
    outputCount := 2
    instrWfms := []
    instrRMode := "CONT"
    wfmCatalog := []
    arbitraryWaveformN := 0
    outputEnabled := [false, false]
    outputMode := ["arbitrary", "arbitrary"]
    outputArbitraryWaveform := ["", ""]
    cacheValid := []
    writes := []
    blockWrites := []
    asks := [] }

/-- awg0 with one waveform resident on the instrument. -/
def awg1 : AwgState := { awg0 with instrWfms := ["wfm0001"], arbitraryWaveformN := 1 }

/-- A simulated AWG state. -/
def awgSim : AwgState := { awg0 with simulate := true }

/-- awg0 reconfigured with a waveform quantum of 2. -/
def awgQ2 : AwgState := { awg0 with quantum := 2 }

/-- A simulated oscilloscope state whose channel 0 cache simultaneously
holds AC coupling and 50 ohm input impedance, exercising both directions of
the cross-attribute constraint. -/
def scopeBoth : ScopeState :=
  { simulate := true
    analogChannelCount := 4
    channelInputImpedance := [50, 1000000, 1000000, 1000000]
    channelCoupling := ["ac", "dc", "dc", "dc"]
    instrInput := ["dc50", "dc", "dc", "dc"]
    cacheValid := []
    writes := []
    asks := [] }

/-- A concrete oscilloscope state in simulation with channel 0 cached at AC
coupling and 1 Mohm input impedance. -/
def scope0 : ScopeState :=
  { simulate := true
    analogChannelCount := 4
    channelInputImpedance := [1000000, 1000000, 1000000, 1000000]
    channelCoupling := ["ac", "dc", "dc", "dc"]
    instrInput := ["ac", "dc", "dc", "dc"]
    cacheValid := []
    writes := []
    asks := [] }

/-- scope0 with channel 0 cached at 50 ohm and DC coupling. -/
def scope50 : ScopeState :=
  { scope0 with
    channelInputImpedance := [50, 1000000, 1000000, 1000000]
    channelCoupling := ["dc", "dc", "dc", "dc"]
    instrInput := ["dc50", "dc", "dc", "dc"] }

/-! Digit formatting and handle names -/

theorem fromDigits_natDigitsAux (fuel : ℕ) :
    ∀ n, n ≤ fuel → fromDigits (natDigitsAux fuel n) = n := by
  induction fuel with
  | zero => intro n hn; interval_cases n; simp [natDigitsAux, fromDigits]
  | succ fuel ih =>
    intro n hn
    match n with
    | 0 => simp [natDigitsAux, fromDigits]
    | n + 1 =>
      have hdiv : (n + 1) / 10 ≤ fuel := by
        have := Nat.div_le_self (n + 1) 10
        have h2 : (n + 1) / 10 < n + 1 := Nat.div_lt_self (Nat.succ_pos n) (by norm_num)
        omega
      simp only [natDigitsAux, fromDigits, ih _ hdiv]
      omega

theorem fromDigits_natDigits (n : ℕ) : fromDigits (natDigits n) = n :=
  fromDigits_natDigitsAux n n le_rfl

theorem fromDigits_append (a b : List ℕ) :
    fromDigits (a ++ b) = fromDigits a + 10 ^ a.length * fromDigits b := by
  induction a with
  | nil => simp [fromDigits]
  | cons d ds ih => simp [fromDigits, ih, List.length_cons, pow_succ]; ring

theorem fromDigits_replicate_zero (k : ℕ) : fromDigits (List.replicate k 0) = 0 := by
  induction k with
  | zero => rfl
  | succ k ih => simp [List.replicate_succ, fromDigits, ih]

theorem fromDigits_pad4 (ds : List ℕ) : fromDigits (pad4 ds) = fromDigits ds := by
  simp [pad4, fromDigits_append, fromDigits_replicate_zero]

theorem natDigitsAux_lt_ten (fuel : ℕ) :
    ∀ n, ∀ d ∈ natDigitsAux fuel n, d < 10 := by
  induction fuel with
  | zero => intro n d hd; simp [natDigitsAux] at hd
  | succ fuel ih =>
    intro n d hd
    match n with
    | 0 => simp [natDigitsAux] at hd
    | n + 1 =>
      simp only [natDigitsAux, List.mem_cons] at hd
      rcases hd with h | h
      · subst h; exact Nat.mod_lt _ (by norm_num)
      · exact ih _ _ h

theorem pad4_lt_ten (n : ℕ) : ∀ d ∈ pad4 (natDigits n), d < 10 := by
  intro d hd
  simp only [pad4, List.mem_append, List.mem_replicate] at hd
  rcases hd with h | h
  · exact natDigitsAux_lt_ten n n d h
  · omega

theorem digitChar_inj : ∀ d1, d1 < 10 → ∀ d2, d2 < 10 →
    digitChar d1 = digitChar d2 → d1 = d2 := by decide

theorem map_digitChar_inj (a : List ℕ) :
    ∀ b, (∀ d ∈ a, d < 10) → (∀ d ∈ b, d < 10) →
      a.map digitChar = b.map digitChar → a = b := by
  induction a with
  | nil => intro b _ _ h; cases b <;> simp_all
  | cons d ds ih =>
    intro b ha hb h
    cases b with
    | nil => simp at h
    | cons e es =>
      simp only [List.map_cons, List.cons.injEq] at h
      have h1 : d = e :=
        digitChar_inj d (ha d (by simp)) e (hb e (by simp)) h.1
      have h2 : ds = es :=
        ih es (fun x hx => ha x (by simp [hx])) (fun x hx => hb x (by simp [hx])) h.2
      rw [h1, h2]

theorem fmtWfm_inj {m n : ℕ} (h : fmtWfm m = fmtWfm n) : m = n := by
  have hdata : ((pad4 (natDigits m)).reverse.map digitChar)
      = ((pad4 (natDigits n)).reverse.map digitChar) := by
    have := congrArg String.data h
    simpa [fmtWfm] using this
  have hrev : (pad4 (natDigits m)).reverse = (pad4 (natDigits n)).reverse := by
    refine map_digitChar_inj _ _ ?_ ?_ hdata
    · intro d hd; exact pad4_lt_ten m d (List.mem_reverse.mp hd)
    · intro d hd; exact pad4_lt_ten n d (List.mem_reverse.mp hd)
  have hpad : pad4 (natDigits m) = pad4 (natDigits n) := by
    have := congrArg List.reverse hrev
    simpa using this
  have := congrArg fromDigits hpad
  rwa [fromDigits_pad4, fromDigits_pad4, fromDigits_natDigits, fromDigits_natDigits] at this

/-! The handle-allocation loop -/

theorem allocHandle_spec (fuel : ℕ) :
    ∀ cat n h n2, allocHandle fuel cat n = some (h, n2) →
      h = fmtWfm n2 ∧ n < n2 ∧ h ∉ cat := by
  induction fuel with
  | zero => intro cat n h n2 hs; simp [allocHandle] at hs
  | succ fuel ih =>
    intro cat n h n2 hs
    simp only [allocHandle] at hs
    by_cases hmem : fmtWfm (n + 1) ∈ cat
    · simp only [if_pos hmem] at hs
      obtain ⟨h1, h2, h3⟩ := ih cat (n + 1) h n2 hs
      exact ⟨h1, by omega, h3⟩
    · simp only [if_neg hmem, Option.some.injEq, Prod.mk.injEq] at hs
      obtain ⟨h1, h2⟩ := hs
      subst h1; subst h2
      exact ⟨rfl, by omega, hmem⟩

theorem allocHandle_none (fuel : ℕ) :
    ∀ cat n, allocHandle fuel cat n = none →
      ∀ j < fuel, fmtWfm (n + j + 1) ∈ cat := by
  induction fuel with
  | zero => intro cat n _ j hj; omega
  | succ fuel ih =>
    intro cat n hs j hj
    simp only [allocHandle] at hs
    by_cases hmem : fmtWfm (n + 1) ∈ cat
    · simp only [if_pos hmem] at hs
      match j with
      | 0 => simpa using hmem
      | j + 1 =>
        have := ih cat (n + 1) hs j (by omega)
        simpa [Nat.add_assoc, Nat.add_comm, Nat.add_left_comm] using this
    · simp [if_neg hmem] at hs

theorem allocHandle_isSome (fuel : ℕ) (cat : List String) (n : ℕ)
    (hf : cat.length < fuel) : (allocHandle fuel cat n).isSome := by
  rcases he : allocHandle fuel cat n with _ | p
  · exfalso
    have hall := allocHandle_none fuel cat n he
    set L : List String := (List.range fuel).map (fun j => fmtWfm (n + j + 1)) with hL
    have hsub : L ⊆ cat := by
      intro a ha
      simp only [hL, List.mem_map, List.mem_range] at ha
      obtain ⟨j, hj, rfl⟩ := ha
      exact hall j hj
    have hnodup : L.Nodup := by
      refine List.Nodup.map ?_ (List.nodup_range fuel)
      intro a b hab
      have := fmtWfm_inj hab
      omega
    have hlen : L.length = fuel := by simp [hL]
    have h1 : L.toFinset.card = L.length := List.toFinset_card_of_nodup hnodup
    have h2 : L.toFinset ⊆ cat.toFinset := by
      intro a ha
      simp only [List.mem_toFinset] at ha ⊢
      exact hsub ha
    have h3 := Finset.card_le_card h2
    have h4 := cat.toFinset_card_le
    omega
  · rfl

theorem create_nil_spec (st : AwgState) (hs : st.simulate = false) :
    ∃ n, (create st (.nd1 false [])).1 = .ok (fmtWfm n) ∧
      st.arbitraryWaveformN < n ∧ fmtWfm n ∉ st.instrWfms ∧
      (create st (.nd1 false [])).2.instrWfms = st.instrWfms ++ [fmtWfm n] ∧
      (create st (.nd1 false [])).2.simulate = false ∧
      (create st (.nd1 false [])).2.arbitraryWaveformN = n := by
  have hfuel : st.instrWfms.length < st.instrWfms.length + 1 := by omega
  have halloc := allocHandle_isSome (st.instrWfms.length + 1)
    st.instrWfms st.arbitraryWaveformN hfuel
  rcases hopt : allocHandle (st.instrWfms.length + 1)
      st.instrWfms st.arbitraryWaveformN with _ | ⟨h, n⟩
  · rw [hopt] at halloc; simp at halloc
  obtain ⟨hfmt, hlt, hnotmem⟩ := allocHandle_spec _ _ _ _ _ hopt
  subst hfmt
  refine ⟨n, ?_, hlt, hnotmem, ?_, ?_, ?_⟩ <;>
    simp [create, resolveRoles, loadWfmCatalog, hs, hopt, doWrite, applyCmdInstr]

/-- C4: every handle returned by _arbitrary_waveform_create has the form
wfm%04d built from a strictly increasing per-driver counter and is absent
from the waveform catalog re-fetched at the start of the call; iterating N
creations against an instrument holding any catalog yields N pairwise
distinct new names, none colliding with the existing ones. -/
theorem create_handles_fresh (st : AwgState) (hs : st.simulate = false) (N : ℕ) :
    (createIter st N).1.length = N ∧
    (createIter st N).1.Nodup ∧
    (∀ h ∈ (createIter st N).1, h ∉ st.instrWfms) ∧
    (∀ h ∈ (createIter st N).1, ∃ k, st.arbitraryWaveformN < k ∧ h = fmtWfm k) := by
  induction N generalizing st with
  | zero => simp [createIter]
  | succ N ih =>
    obtain ⟨n, hres, hlt, hfresh, hinstr, hsim, hctr⟩ := create_nil_spec st hs
    rcases hc : create st (.nd1 false []) with ⟨res, st1⟩
    rw [hc] at hres hinstr hsim hctr
    simp only at hres hinstr hsim hctr
    subst hres
    have hstep : createIter st (N + 1)
        = (fmtWfm n :: (createIter st1 N).1, (createIter st1 N).2) := by
      simp [createIter, hc]
    obtain ⟨ihlen, ihnodup, ihfresh, ihctr⟩ := ih st1 hsim
    rw [hstep]
    refine ⟨by simp [ihlen], ?_, ?_, ?_⟩
    · refine List.nodup_cons.mpr ⟨?_, ihnodup⟩
      intro hmem
      have := ihfresh _ hmem
      rw [hinstr] at this
      simp at this
    · intro h hm
      rcases List.mem_cons.mp hm with rfl | hm2
      · exact hfresh
      · have := ihfresh _ hm2
        rw [hinstr] at this
        intro hcontra
        exact this (by simp [hcontra])
    · intro h hm
      rcases List.mem_cons.mp hm with rfl | hm2
      · exact ⟨n, hlt, rfl⟩
      · obtain ⟨k, hk, rfl⟩ := ihctr _ hm2
        rw [hctr] at hk
        exact ⟨k, by omega, rfl⟩

/-- C4 witness: three creations against a catalog of one existing waveform
give three distinct fresh wfm-names. -/
theorem create_handles_fresh_witness :
    awg1.simulate = false ∧
    ((createIter awg1 3).1.length = 3 ∧
     (createIter awg1 3).1.Nodup ∧
     (∀ h ∈ (createIter awg1 3).1, h ∉ awg1.instrWfms) ∧
     (∀ h ∈ (createIter awg1 3).1, ∃ k, awg1.arbitraryWaveformN < k ∧ h = fmtWfm k)) :=
  ⟨rfl, create_handles_fresh awg1 rfl 3⟩

/-- C2 counterexample: the empty sample sequence has length 0, below the
configured minimum waveform size 1, yet _arbitrary_waveform_create does not
fail: it issues the waveform-new command and returns a handle. -/
theorem create_ignores_size_bounds :
    awg0.sizeMin = 1 ∧
    (create awg0 (.nd1 false [])).1 = .ok "wfm0001" ∧
    Cmd.wfmNew "wfm0001" 0 false ∈ (create awg0 (.nd1 false [])).2.writes := by
  refine ⟨rfl, rfl, ?_⟩
  decide

/-- C2 (amended): a sample sequence whose length is not a multiple of the
configured quantum makes _arbitrary_waveform_create fail with
ValueNotSupportedException before any instrument command is issued (the
state, including the write log, is untouched); the minimum/maximum waveform
size bounds are not checked. -/
theorem create_quantum_violation (st : AwgState) (d : PyData) (y : List ℚ)
    (m1 m2 : Option (List ℚ)) (isInt : Bool)
    (hr : resolveRoles d = .ok (some y, m1, m2, isInt))
    (hq : y.length % st.quantum ≠ 0) :
    create st d = (.error (.valueNotSupported none), st) := by
  simp [create, hr, hq]

/-- C2 witness: a single sample against quantum 2 is rejected with the
state unchanged. -/
theorem create_quantum_violation_witness :
    resolveRoles (.nd1 false [0]) = .ok (some [0], none, none, false) ∧
    ([(0 : ℚ)].length % awgQ2.quantum ≠ 0) ∧
    create awgQ2 (.nd1 false [0]) = (.error (.valueNotSupported none), awgQ2) :=
  ⟨rfl, by decide,
   create_quantum_violation awgQ2 (.nd1 false [0]) [0] none none false rfl (by decide)⟩

/-- C8: in simulate mode _abort_generation still performs a transport write
(AWGC:STOP); the driver omits the simulate guard used elsewhere, so the
documented bypass of all instrument I/O in simulation does not hold. -/
theorem abort_generation_simulate_writes :
    awgSim.simulate = true ∧
    (abortGeneration awgSim).writes = [Cmd.awgcStop] ∧
    (abortGeneration awgSim).writes ≠ [] :=
  ⟨rfl, rfl, by decide⟩

/-- C10 counterexample: a zero-length integer ndarray makes the encoding
loop run zero times, so no AttributeError is raised: the data block is
transmitted and a handle is returned, and the int16 channel-waveform
creation succeeds on it. -/
theorem create_int_empty_succeeds :
    (create awg0 (.nd1 true [])).1 = .ok "wfm0001" ∧
    (create awg0 (.nd1 true [])).2.blockWrites = [("wfm0001", 0, 0, [])] ∧
    (createChannelWaveformInt16 awg1 0 (.nd1 true [])).1 = .ok "wfm0002" :=
  ⟨rfl, by decide, rfl⟩

/-- C10 (amended): for every integer-dtype ndarray that resolves to a
nonempty sample sequence passing the quantum check, the waveform-new
command is issued first and the integer encoding branch then raises
AttributeError (struct.data does not exist), so no data block is
transmitted and no handle is returned; the int16 channel-waveform wrapper
consequently propagates the error. -/
theorem create_int_nonempty_raises (st : AwgState) (i : ℕ) (y : List ℚ) (hy : y ≠ [])
    (hq : y.length % st.quantum = 0) :
    (create st (.nd1 true y)).1 = .error .attributeError ∧
    (∃ h, (create st (.nd1 true y)).2.writes = st.writes ++ [Cmd.wfmNew h y.length true]) ∧
    (create st (.nd1 true y)).2.blockWrites = st.blockWrites ∧
    (createChannelWaveformInt16 st i (.nd1 true y)).1 = .error .attributeError := by
  match y, hy with
  | a :: l, _ =>
    have hfuel : (loadWfmCatalog st).wfmCatalog.length
        < (loadWfmCatalog st).wfmCatalog.length + 1 := by omega
    have halloc := allocHandle_isSome ((loadWfmCatalog st).wfmCatalog.length + 1)
      (loadWfmCatalog st).wfmCatalog (loadWfmCatalog st).arbitraryWaveformN hfuel
    rcases hopt : allocHandle ((loadWfmCatalog st).wfmCatalog.length + 1)
        (loadWfmCatalog st).wfmCatalog (loadWfmCatalog st).arbitraryWaveformN with _ | ⟨h, n⟩
    · rw [hopt] at halloc; simp at halloc
    have hw : (loadWfmCatalog st).writes = st.writes := by
      unfold loadWfmCatalog; split <;> rfl
    have hb : (loadWfmCatalog st).blockWrites = st.blockWrites := by
      unfold loadWfmCatalog; split <;> rfl
    have hcr : create st (.nd1 true (a :: l)) =
        (.error .attributeError,
         doWrite { loadWfmCatalog st with arbitraryWaveformN := n }
           (.wfmNew h (a :: l).length true)) := by
      have hq' : (l.length + 1) % st.quantum = 0 := by simpa using hq
      simp [create, resolveRoles, hopt, encInt, hq']
    refine ⟨by rw [hcr], ⟨h, ?_⟩, ?_, ?_⟩
    · rw [hcr]; simp [doWrite, hw]
    · rw [hcr]; simp [doWrite, hb]
    · simp [createChannelWaveformInt16, hcr]

/-- C10 witness: a one-sample integer array triggers the failure. -/
theorem create_int_nonempty_raises_witness :
    (([(1 : ℚ)] : List ℚ) ≠ []) ∧
    ([(1 : ℚ)].length % awg0.quantum = 0) ∧
    ((create awg0 (.nd1 true [1])).1 = .error .attributeError ∧
     (∃ h, (create awg0 (.nd1 true [1])).2.writes
        = awg0.writes ++ [Cmd.wfmNew h [(1 : ℚ)].length true]) ∧
     (create awg0 (.nd1 true [1])).2.blockWrites = awg0.blockWrites ∧
     (createChannelWaveformInt16 awg0 0 (.nd1 true [1])).1 = .error .attributeError) :=
  ⟨by simp, by decide, create_int_nonempty_raises awg0 0 [1] (by simp) (by decide)⟩

/-! Cache helper lemmas -/

theorem getD_set_self (l : List α) (i : ℕ) (a d : α) (h : i < l.length) :
    (l.set i a).getD i d = a := by
  rw [List.getD_eq_getElem _ _ (by simpa using h)]
  simp [List.getElem_set_self]

theorem getCV_setCV_true_self (cv : List (String × ℕ)) (tag : String) (i : ℕ) :
    getCV (setCV cv true tag i) tag i = true := by
  simp only [getCV, setCV, if_true, decide_eq_true_eq]
  split
  · assumption
  · simp

theorem getCV_setCV_true_other (cv : List (String × ℕ)) (tag t2 : String) (i k : ℕ)
    (hne : (t2, k) ≠ (tag, i)) :
    getCV (setCV cv true tag i) t2 k = getCV cv t2 k := by
  simp only [getCV, setCV, if_true]
  split
  · rfl
  · simp [hne]

theorem setCV_true_nodup (cv : List (String × ℕ)) (tag : String) (i : ℕ)
    (h : cv.Nodup) : (setCV cv true tag i).Nodup := by
  simp only [setCV, if_true]
  split
  · exact h
  · simpa [List.nodup_append] using ⟨h, by assumption⟩

theorem foldl_setCV_false_spec (tag : String) :
    ∀ (ks : List ℕ) (cv : List (String × ℕ)), cv.Nodup →
      (ks.foldl (fun c k => setCV c false tag k) cv).Nodup ∧
      ∀ p : String × ℕ,
        (p ∈ ks.foldl (fun c k => setCV c false tag k) cv ↔
         p ∈ cv ∧ ¬(p.1 = tag ∧ p.2 ∈ ks)) := by
  intro ks
  induction ks with
  | nil => intro cv h; simp [h]
  | cons k ks ih =>
    intro cv h
    have herase : (setCV cv false tag k).Nodup := by
      simpa [setCV] using List.Nodup.erase (tag, k) h
    obtain ⟨ihnodup, ihmem⟩ := ih (setCV cv false tag k) herase
    refine ⟨by simpa [List.foldl_cons] using ihnodup, ?_⟩
    intro p
    rw [List.foldl_cons, ihmem p]
    have hmem : p ∈ setCV cv false tag k ↔ p ≠ (tag, k) ∧ p ∈ cv := by
      simpa [setCV] using List.Nodup.mem_erase_iff h
    rw [hmem]
    constructor
    · rintro ⟨⟨hne, hcv⟩, hnot⟩
      refine ⟨hcv, ?_⟩
      rintro ⟨h1, h2⟩
      rcases List.mem_cons.mp h2 with h3 | h3
      · exact hne (by cases p; simp_all)
      · exact hnot ⟨h1, h3⟩
    · rintro ⟨hcv, hnot⟩
      refine ⟨⟨?_, hcv⟩, ?_⟩
      · rintro rfl
        exact hnot ⟨rfl, by simp⟩
      · rintro ⟨h1, h2⟩
        exact hnot ⟨h1, by simp [h2]⟩

/-- C5 (amended): after a successful instrument write, each modelled setter
stores the written value in the cache; _set_output_enabled additionally
marks its entry valid, while _set_output_arbitrary_waveform leaves the
validity flags exactly as they were (it never calls _set_cache_valid). -/
theorem setter_cache_discipline (st : AwgState) (i : ℕ) (v : Bool) (name : String)
    (hi1 : i < st.outputEnabled.length)
    (hi2 : i < st.outputArbitraryWaveform.length)
    (hok : (setOutputArbitraryWaveform st i name).1 = .ok ()) :
    ((setOutputEnabled st i v).outputEnabled.getD i false = v ∧
     getCV (setOutputEnabled st i v).cacheValid "output_enabled" i = true) ∧
    ((setOutputArbitraryWaveform st i name).2.outputArbitraryWaveform.getD i ""
       = pyLower name ∧
     (setOutputArbitraryWaveform st i name).2.cacheValid = st.cacheValid) := by
  constructor
  · have hlen : ((if st.simulate then st
        else doWrite st (.outputState i v)).outputEnabled) = st.outputEnabled := by
      split <;> rfl
    constructor
    · simp only [setOutputEnabled, hlen]
      exact getD_set_self _ _ _ _ hi1
    · simp only [setOutputEnabled]
      exact getCV_setCV_true_self _ _ _
  · by_cases hmem : pyLower name ∈ (loadWfmCatalog st).wfmCatalog
    · constructor
      · simp only [setOutputArbitraryWaveform]
        rw [if_neg (by simp [hmem])]
        by_cases hsim : st.simulate <;>
          · simp [loadWfmCatalog, hsim, doWrite]
            simp [List.getElem?_set, hi2]
      · simp only [setOutputArbitraryWaveform]
        rw [if_neg (by simp [hmem])]
        by_cases hsim : st.simulate <;>
          simp [loadWfmCatalog, hsim, doWrite]
    · exfalso
      simp only [setOutputArbitraryWaveform] at hok
      rw [if_pos (by simp [hmem])] at hok
      exact Except.noConfusion hok

/-- C5 witness: concrete run on a driver whose instrument holds wfm0001. -/
theorem setter_cache_discipline_witness :
    (0 < awg1.outputEnabled.length) ∧
    (0 < awg1.outputArbitraryWaveform.length) ∧
    (setOutputArbitraryWaveform awg1 0 "wfm0001").1 = .ok () ∧
    (((setOutputEnabled awg1 0 true).outputEnabled.getD 0 false = true ∧
      getCV (setOutputEnabled awg1 0 true).cacheValid "output_enabled" 0 = true) ∧
     ((setOutputArbitraryWaveform awg1 0 "wfm0001").2.outputArbitraryWaveform.getD 0 ""
        = pyLower "wfm0001" ∧
      (setOutputArbitraryWaveform awg1 0 "wfm0001").2.cacheValid = awg1.cacheValid)) :=
  ⟨by decide, by decide, rfl,
   setter_cache_discipline awg1 0 true "wfm0001" (by decide) (by decide) rfl⟩

/-- C5 counterexample: _set_output_arbitrary_waveform succeeds, stores the
value, but does not mark the cache entry valid, contradicting the claim that
every setter marks its entry valid after a successful write. -/
theorem set_output_arbitrary_waveform_no_valid :
    (setOutputArbitraryWaveform awg1 0 "wfm0001").1 = .ok () ∧
    (setOutputArbitraryWaveform awg1 0 "wfm0001").2.outputArbitraryWaveform.getD 0 ""
      = "wfm0001" ∧
    getCV (setOutputArbitraryWaveform awg1 0 "wfm0001").2.cacheValid
      "output_arbitrary_waveform" 0 = false := by
  refine ⟨rfl, by decide, by decide⟩

/-- C6 counterexample: after _set_output_mode sets sequence mode on channel
0, the cached output-mode entry of channel 0 itself is valid again (the
setter re-marks the mutated channel valid after the invalidation loop), so a
get on channel 0 is a cache hit issuing no query, contradicting the claim
that every channel is forced to re-query. -/
theorem set_output_mode_mutated_channel_hit :
    (setOutputMode awg0 0 "sequence").1 = .ok () ∧
    awg0.simulate = false ∧
    getCV (setOutputMode awg0 0 "sequence").2.cacheValid "output_mode" 0 = true ∧
    (getOutputMode (setOutputMode awg0 0 "sequence").2 0).2.asks
      = (setOutputMode awg0 0 "sequence").2.asks :=
  ⟨rfl, rfl, by decide, by decide⟩

/-- C6 (amended): after a successful _set_output_mode to sequence on channel
i, the cached output-mode entries of all other channels are invalid, so
their next get outside simulation issues the run-mode query; channel i
itself is re-marked valid, so its next get hits the cache and issues no
query. -/
theorem set_output_mode_invalidates (st : AwgState) (i : ℕ)
    (hnd : st.cacheValid.Nodup) :
    (setOutputMode st i "sequence").1 = .ok () ∧
    getCV (setOutputMode st i "sequence").2.cacheValid "output_mode" i = true ∧
    ((setOutputMode st i "sequence").2.simulate = false →
      (getOutputMode (setOutputMode st i "sequence").2 i).2.asks
        = (setOutputMode st i "sequence").2.asks) ∧
    ∀ k < st.outputCount, k ≠ i →
      getCV (setOutputMode st i "sequence").2.cacheValid "output_mode" k = false ∧
      ((setOutputMode st i "sequence").2.simulate = false →
        (getOutputMode (setOutputMode st i "sequence").2 k).2.asks
          = (setOutputMode st i "sequence").2.asks ++ [":awgcontrol:rmode?"]) := by
  have hres : (setOutputMode st i "sequence").1 = .ok () := by
    by_cases hsim : st.simulate <;> simp [setOutputMode, legalOutputModes, hsim]
  have hcv : (setOutputMode st i "sequence").2.cacheValid
      = setCV ((List.range st.outputCount).foldl
          (fun cv k => setCV cv false "output_mode" k) st.cacheValid)
          true "output_mode" i := by
    by_cases hsim : st.simulate <;>
      simp [setOutputMode, legalOutputModes, hsim, doWrite]
  have hvalid : getCV (setOutputMode st i "sequence").2.cacheValid "output_mode" i
      = true := by
    rw [hcv]; exact getCV_setCV_true_self _ _ _
  obtain ⟨hfnodup, hfmem⟩ :=
    foldl_setCV_false_spec "output_mode" (List.range st.outputCount) st.cacheValid hnd
  refine ⟨hres, hvalid, ?_, ?_⟩
  · intro hsim2
    simp [getOutputMode, hvalid]
  · intro k hk hki
    have hinvalid : getCV (setOutputMode st i "sequence").2.cacheValid "output_mode" k
        = false := by
      rw [hcv, getCV_setCV_true_other _ _ _ _ _ (by simp [hki])]
      simp only [getCV, decide_eq_false_iff_not]
      rw [hfmem]
      rintro ⟨_, h2⟩
      exact h2 ⟨rfl, by simpa using hk⟩
    refine ⟨hinvalid, ?_⟩
    intro hsim2
    simp [getOutputMode, hinvalid, hsim2]

/-- C6 witness: concrete two-channel driver, channel 0 mutated. -/
theorem set_output_mode_invalidates_witness :
    awg0.cacheValid.Nodup ∧
    ((setOutputMode awg0 0 "sequence").1 = .ok () ∧
     getCV (setOutputMode awg0 0 "sequence").2.cacheValid "output_mode" 0 = true ∧
     ((setOutputMode awg0 0 "sequence").2.simulate = false →
       (getOutputMode (setOutputMode awg0 0 "sequence").2 0).2.asks
         = (setOutputMode awg0 0 "sequence").2.asks) ∧
     ∀ k < awg0.outputCount, k ≠ 0 →
       getCV (setOutputMode awg0 0 "sequence").2.cacheValid "output_mode" k = false ∧
       ((setOutputMode awg0 0 "sequence").2.simulate = false →
         (getOutputMode (setOutputMode awg0 0 "sequence").2 k).2.asks
           = (setOutputMode awg0 0 "sequence").2.asks ++ [":awgcontrol:rmode?"])) :=
  ⟨by decide, set_output_mode_invalidates awg0 0 (by decide)⟩

theorem getChannelCoupling_frame (st : ScopeState) (i : ℕ) :
    (getChannelCoupling st i).2.writes = st.writes ∧
    (getChannelCoupling st i).2.channelInputImpedance = st.channelInputImpedance ∧
    getCV (getChannelCoupling st i).2.cacheValid "channel_input_impedance" i
      = getCV st.cacheValid "channel_input_impedance" i ∧
    (getChannelCoupling st i).2.simulate = st.simulate := by
  unfold getChannelCoupling
  split
  · exact ⟨rfl, rfl, getCV_setCV_true_other _ _ _ _ _ (by simp), rfl⟩
  · exact ⟨rfl, rfl, rfl, rfl⟩

theorem getChannelInputImpedance_frame (st : ScopeState) (i : ℕ) :
    (getChannelInputImpedance st i).2.writes = st.writes ∧
    (getChannelInputImpedance st i).2.channelCoupling = st.channelCoupling ∧
    getCV (getChannelInputImpedance st i).2.cacheValid "channel_coupling" i
      = getCV st.cacheValid "channel_coupling" i ∧
    (getChannelInputImpedance st i).2.simulate = st.simulate := by
  unfold getChannelInputImpedance
  split
  · exact ⟨rfl, rfl, getCV_setCV_true_other _ _ _ _ _ (by simp), rfl⟩
  · exact ⟨rfl, rfl, rfl, rfl⟩

/-- C7: setting 50 ohm input impedance while the coupling reads ac fails with
the dedicated AC/50-ohm ValueNotSupportedException (the unsupported
combination of the spec), and setting ac coupling while the impedance reads
50 fails the same way; in both directions the failure occurs before any
instrument write (the write log is that of the initial state) and the
attribute being set keeps its cached value and validity (only the coupling
or impedance read performed by the setter may refresh the other entry). -/
theorem impedance_coupling_conflict (st : ScopeState) (i : ℕ) :
    ((getChannelCoupling st i).1 = "ac" →
      setChannelInputImpedance st i 50
        = (.error (.valueNotSupported (some acMsg)), (getChannelCoupling st i).2) ∧
      (setChannelInputImpedance st i 50).2.writes = st.writes ∧
      (setChannelInputImpedance st i 50).2.channelInputImpedance
        = st.channelInputImpedance ∧
      getCV (setChannelInputImpedance st i 50).2.cacheValid
        "channel_input_impedance" i
        = getCV st.cacheValid "channel_input_impedance" i) ∧
    ((getChannelInputImpedance st i).1 = 50 →
      setChannelCoupling st i "ac"
        = (.error (.valueNotSupported (some acMsg)), (getChannelInputImpedance st i).2) ∧
      (setChannelCoupling st i "ac").2.writes = st.writes ∧
      (setChannelCoupling st i "ac").2.channelCoupling = st.channelCoupling ∧
      getCV (setChannelCoupling st i "ac").2.cacheValid "channel_coupling" i
        = getCV st.cacheValid "channel_coupling" i) := by
  constructor
  · intro hac
    obtain ⟨hw, himp, hcv, _⟩ := getChannelCoupling_frame st i
    have heq : setChannelInputImpedance st i 50
        = (.error (.valueNotSupported (some acMsg)), (getChannelCoupling st i).2) := by
      rcases hg : getChannelCoupling st i with ⟨c, st1⟩
      rw [hg] at hac
      simp only at hac
      simp [setChannelInputImpedance, hg, hac]
    rw [heq]
    exact ⟨rfl, hw, himp, hcv⟩
  · intro h50
    obtain ⟨hw, hcoup, hcv, _⟩ := getChannelInputImpedance_frame st i
    have heq : setChannelCoupling st i "ac"
        = (.error (.valueNotSupported (some acMsg)), (getChannelInputImpedance st i).2) := by
      rcases hg : getChannelInputImpedance st i with ⟨v, st1⟩
      rw [hg] at h50
      simp only at h50
      simp [setChannelCoupling, hg, h50]
    rw [heq]
    exact ⟨rfl, hw, hcoup, hcv⟩

/-- C7 witness: a cached state reading ac coupling and 50 ohm impedance on
channel 0, on which both directions fail before any write. -/
theorem impedance_coupling_conflict_witness :
    (getChannelCoupling scopeBoth 0).1 = "ac" ∧
    (getChannelInputImpedance scopeBoth 0).1 = 50 ∧
    (setChannelInputImpedance scopeBoth 0 50).1
      = .error (.valueNotSupported (some acMsg)) ∧
    (setChannelCoupling scopeBoth 0 "ac").1
      = .error (.valueNotSupported (some acMsg)) ∧
    (setChannelInputImpedance scopeBoth 0 50).2.writes = scopeBoth.writes ∧
    (setChannelCoupling scopeBoth 0 "ac").2.writes = scopeBoth.writes := by
  have h1 := (impedance_coupling_conflict scopeBoth 0).1 rfl
  have h2 := (impedance_coupling_conflict scopeBoth 0).2 rfl
  exact ⟨rfl, rfl, by rw [h1.1], by rw [h2.1], h1.2.1, h2.2.1⟩

/-! Byte-layout lemmas for the real-sample encoder -/

theorem pySlice_append (pre F : List ℕ) (a b : ℕ) :
    pySlice (pre ++ F) (pre.length + a) (pre.length + b) = pySlice F a b := by
  simp only [pySlice, List.drop_append]
  congr 1
  omega

theorem pySlice_cons (x : ℕ) (l : List ℕ) (a b : ℕ) :
    pySlice (x :: l) (a + 1) (b + 1) = pySlice l a b := by
  simp [pySlice]

theorem markerBytes_length (n : ℕ) (m1 m2 : Option (List ℚ))
    (hm1 : ∀ l, m1 = some l → l.length = n)
    (hm2 : ∀ l, m2 = some l → l.length = n) :
    (markerBytes n m1 m2).length = n := by
  match m1 with
  | none => simp [markerBytes]
  | some l1 =>
    match m2 with
    | none => simp [markerBytes, hm1 l1 rfl]
    | some l2 => simp [markerBytes, hm1 l1 rfl, hm2 l2 rfl]

theorem floatChunks_chunk_length (y : List ℚ) : ∀ ch ∈ floatChunks y, ch.length = 4 := by
  intro ch hch
  obtain ⟨s, _, rfl⟩ := List.mem_map.mp hch
  rfl

theorem floatChunks_length (y : List ℚ) : (floatChunks y).length = y.length := by
  simp [floatChunks]

theorem range_slices_flatten :
    ∀ (cs : List (List ℕ)) (mk : List ℕ),
      (∀ ch ∈ cs, ch.length = 4) → mk.length = cs.length →
      ((List.range cs.length).map fun ii =>
        pySlice cs.flatten (4 * ii) (4 * (ii + 1)) ++ pySlice mk ii (ii + 1)).flatten
        = interleave5 cs mk := by
  intro cs
  induction cs with
  | nil =>
    intro mk _ hm
    have : mk = [] := List.length_eq_zero.mp hm
    subst this
    simp [interleave5]
  | cons ch cs ih =>
    intro mk hc hm
    match mk with
    | m :: ms =>
      have hch : ch.length = 4 := hc ch (by simp)
      have hms : ms.length = cs.length := by simpa using hm
      rw [show (ch :: cs).length = cs.length + 1 from rfl, List.range_succ_eq_map]
      simp only [List.map_cons, List.flatten_cons, List.map_map]
      have hhead :
          pySlice (ch ++ cs.flatten) (4 * 0) (4 * (0 + 1)) ++ pySlice (m :: ms) 0 (0 + 1)
            = ch ++ [m] := by
        simp only [Nat.mul_zero, Nat.zero_add, Nat.mul_one, pySlice, List.drop_zero,
          Nat.sub_zero]
        rw [← hch, List.take_left]
        simp [hch]
      have htail :
          (List.range cs.length).map
              ((fun ii => pySlice (ch ++ cs.flatten) (4 * ii) (4 * (ii + 1))
                ++ pySlice (m :: ms) ii (ii + 1)) ∘ Nat.succ)
            = (List.range cs.length).map
              (fun ii => pySlice cs.flatten (4 * ii) (4 * (ii + 1))
                ++ pySlice ms ii (ii + 1)) := by
        refine List.map_eq_map_iff.mpr ?_
        intro a _
        simp only [Function.comp_apply]
        have e1 : 4 * (a + 1) = ch.length + 4 * a := by rw [hch]; ring
        have e2 : 4 * (a + 1 + 1) = ch.length + 4 * (a + 1) := by rw [hch]; ring
        have hslice : pySlice (ch ++ cs.flatten) (4 * (a + 1)) (4 * (a + 1 + 1))
            = pySlice cs.flatten (4 * a) (4 * (a + 1)) := by
          conv_lhs => rw [e1, e2]
          exact pySlice_append ch cs.flatten (4 * a) (4 * (a + 1))
        rw [hslice, show a + 1 + 1 = (a + 1) + 1 from rfl, pySlice_cons]
      rw [hhead, htail, ih ms (fun c hcm => hc c (List.mem_cons_of_mem _ hcm)) hms]
      simp [interleave5]

theorem encodeReal_eq_interleave5 (y : List ℚ) (m1 m2 : Option (List ℚ))
    (hm1 : ∀ l, m1 = some l → l.length = y.length)
    (hm2 : ∀ l, m2 = some l → l.length = y.length) :
    encodeReal y m1 m2
      = interleave5 (floatChunks (y.map clip1)) (markerBytes y.length m1 m2) := by
  unfold encodeReal
  have h1 : y.length = (floatChunks (y.map clip1)).length := by
    simp [floatChunks]
  have h2 : (markerBytes y.length m1 m2).length = (floatChunks (y.map clip1)).length := by
    rw [markerBytes_length y.length m1 m2 hm1 hm2, h1]
  calc ((List.range y.length).map fun ii =>
          pySlice (floatChunks (y.map clip1)).flatten (4 * ii) (4 * (ii + 1))
            ++ pySlice (markerBytes y.length m1 m2) ii (ii + 1)).flatten
      = ((List.range (floatChunks (y.map clip1)).length).map fun ii =>
          pySlice (floatChunks (y.map clip1)).flatten (4 * ii) (4 * (ii + 1))
            ++ pySlice (markerBytes y.length m1 m2) ii (ii + 1)).flatten := by rw [← h1]
    _ = interleave5 (floatChunks (y.map clip1)) (markerBytes y.length m1 m2) :=
        range_slices_flatten _ _ (floatChunks_chunk_length _) h2

theorem interleave5_length :
    ∀ (cs : List (List ℕ)) (mk : List ℕ),
      (∀ ch ∈ cs, ch.length = 4) → mk.length = cs.length →
      (interleave5 cs mk).length = 5 * cs.length := by
  intro cs
  induction cs with
  | nil =>
    intro mk _ hm
    have : mk = [] := List.length_eq_zero.mp hm
    subst this
    simp [interleave5]
  | cons ch cs ih =>
    intro mk hc hm
    match mk with
    | m :: ms =>
      have hch : ch.length = 4 := hc ch (by simp)
      have := ih ms (fun c hcm => hc c (List.mem_cons_of_mem _ hcm)) (by simpa using hm)
      simp only [interleave5, List.length_append, List.length_cons, this, hch]
      ring

theorem interleave5_slice :
    ∀ (cs : List (List ℕ)) (mk : List ℕ) (i : ℕ),
      (∀ ch ∈ cs, ch.length = 4) → mk.length = cs.length → i < cs.length →
      pySlice (interleave5 cs mk) (5 * i) (5 * i + 4) = cs.getD i [] := by
  intro cs
  induction cs with
  | nil => intro mk i _ _ hi; simp at hi
  | cons ch cs ih =>
    intro mk i hc hm hi
    match mk with
    | m :: ms =>
      have hch : ch.length = 4 := hc ch (by simp)
      match i with
      | 0 =>
        simp only [interleave5, Nat.mul_zero, Nat.zero_add, pySlice, List.drop_zero,
          Nat.sub_zero, List.getD_cons_zero]
        rw [show ch ++ m :: interleave5 cs ms = ch ++ (m :: interleave5 cs ms) from rfl,
          ← hch, List.take_left]
      | i + 1 =>
        have h5 : (ch ++ [m]).length = 5 := by simp [hch]
        have e1 : 5 * (i + 1) = (ch ++ [m]).length + 5 * i := by rw [h5]; ring
        have e2 : 5 * (i + 1) + 4 = (ch ++ [m]).length + (5 * i + 4) := by rw [h5]; ring
        calc pySlice (interleave5 (ch :: cs) (m :: ms)) (5 * (i + 1)) (5 * (i + 1) + 4)
            = pySlice ((ch ++ [m]) ++ interleave5 cs ms)
                ((ch ++ [m]).length + 5 * i) ((ch ++ [m]).length + (5 * i + 4)) := by
              rw [← e1, ← e2,
                show interleave5 (ch :: cs) (m :: ms) = ch ++ m :: interleave5 cs ms
                  from rfl, List.append_cons]
          _ = pySlice (interleave5 cs ms) (5 * i) (5 * i + 4) := pySlice_append _ _ _ _
          _ = cs.getD i [] :=
              ih ms i (fun c hcm => hc c (List.mem_cons_of_mem _ hcm))
                (by simpa using hm) (by simpa using hi)

theorem interleave5_getD_marker :
    ∀ (cs : List (List ℕ)) (mk : List ℕ) (i : ℕ),
      (∀ ch ∈ cs, ch.length = 4) → mk.length = cs.length → i < cs.length →
      (interleave5 cs mk).getD (5 * i + 4) 0 = mk.getD i 0 := by
  intro cs
  induction cs with
  | nil => intro mk i _ _ hi; simp at hi
  | cons ch cs ih =>
    intro mk i hc hm hi
    match mk with
    | m :: ms =>
      have hch : ch.length = 4 := hc ch (by simp)
      match i with
      | 0 =>
        simp only [interleave5, Nat.mul_zero, Nat.zero_add, List.getD_cons_zero]
        rw [List.getD_append_right ch (m :: interleave5 cs ms) 0 4 (by omega)]
        simp [hch]
      | i + 1 =>
        have h5 : (ch ++ [m]).length = 5 := by simp [hch]
        have e2 : 5 * (i + 1) + 4 = (ch ++ [m]).length + (5 * i + 4) := by rw [h5]; ring
        calc (interleave5 (ch :: cs) (m :: ms)).getD (5 * (i + 1) + 4) 0
            = ((ch ++ [m]) ++ interleave5 cs ms).getD
                ((ch ++ [m]).length + (5 * i + 4)) 0 := by
              rw [← e2,
                show interleave5 (ch :: cs) (m :: ms) = ch ++ m :: interleave5 cs ms
                  from rfl, List.append_cons]
          _ = (interleave5 cs ms).getD (5 * i + 4) 0 := by
              rw [List.getD_append_right _ _ 0 _ (by omega)]
              simp
          _ = ms.getD i 0 :=
              ih ms i (fun c hcm => hc c (List.mem_cons_of_mem _ hcm))
                (by simpa using hm) (by simpa using hi)

theorem byteWord_leBytes4 (w : ℕ) (hw : w < 2 ^ 32) : byteWord (leBytes4 w) = w := by
  simp only [byteWord, leBytes4, List.getD_cons_zero, List.getD_cons_succ]
  omega

theorem deinterleave_interleave5 :
    ∀ (ws : List ℕ) (mk : List ℕ),
      (∀ w ∈ ws, w < 2 ^ 32) → mk.length = ws.length →
      deinterleave (interleave5 (ws.map leBytes4) mk) = ws.map decodeF32 := by
  intro ws
  induction ws with
  | nil =>
    intro mk _ hm
    have : mk = [] := List.length_eq_zero.mp (by simpa using hm)
    subst this
    simp [interleave5, deinterleave]
  | cons w ws ih =>
    intro mk hw hm
    match mk with
    | m :: ms =>
      have hw0 : w < 2 ^ 32 := hw w (by simp)
      have hrec := ih ms (fun x hx => hw x (List.mem_cons_of_mem _ hx)) (by simpa using hm)
      show deinterleave (interleave5 (leBytes4 w :: ws.map leBytes4) (m :: ms)) = _
      rw [show interleave5 (leBytes4 w :: ws.map leBytes4) (m :: ms)
          = leBytes4 w ++ m :: interleave5 (ws.map leBytes4) ms from rfl]
      simp only [leBytes4, List.cons_append, List.nil_append, deinterleave]
      rw [show [w % 256, w / 256 % 256, w / 256 ^ 2 % 256, w / 256 ^ 3 % 256]
          = leBytes4 w from rfl, byteWord_leBytes4 w hw0, hrec]
      simp

/-! Bounds on the float32 conversion -/

theorem roundHalfEven_nonneg (q : ℚ) (hq : 0 ≤ q) : 0 ≤ roundHalfEven q := by
  have hfl : (0 : ℤ) ≤ ⌊q⌋ := Int.floor_nonneg.mpr hq
  unfold roundHalfEven
  split
  · exact hfl
  split
  · omega
  split <;> omega

theorem roundHalfEven_le (q : ℚ) (k : ℤ) (h : q ≤ (k : ℚ)) : roundHalfEven q ≤ k := by
  have hfl : ⌊q⌋ ≤ k := by
    have := Int.floor_le_floor h
    simpa using this
  rcases eq_or_lt_of_le h with heq | hlt
  · subst heq
    unfold roundHalfEven
    rw [Int.floor_intCast]
    split
    · rfl
    · exfalso
      simp_all
  · have hlt2 : ⌊q⌋ < k := by
      have h1 : (⌊q⌋ : ℚ) ≤ q := Int.floor_le q
      have : (⌊q⌋ : ℚ) < (k : ℚ) := lt_of_le_of_lt h1 hlt
      exact_mod_cast this
    unfold roundHalfEven
    split
    · omega
    split
    · omega
    split <;> omega

theorem f32expAux_spec (m : ℚ) :
    ∀ (r j : ℕ), j + r = 127 → m ≤ (2 : ℚ) ^ (1 - (j : ℤ)) →
      -126 ≤ f32expAux m j r ∧ f32expAux m j r ≤ 0 ∧
        m ≤ (2 : ℚ) ^ (f32expAux m j r + 1) := by
  intro r
  induction r with
  | zero =>
    intro j hj hle
    have hj127 : j = 127 := by omega
    subst hj127
    refine ⟨le_refl _, by norm_num [f32expAux], ?_⟩
    show m ≤ (2 : ℚ) ^ ((-126 : ℤ) + 1)
    calc m ≤ (2 : ℚ) ^ (1 - (127 : ℤ)) := hle
      _ ≤ (2 : ℚ) ^ ((-126 : ℤ) + 1) := by
          apply zpow_le_zpow_right₀ (by norm_num)
          norm_num
  | succ r ih =>
    intro j hj hle
    by_cases hcase : (2 : ℚ) ^ (-(j : ℤ)) ≤ m
    · have hval : f32expAux m j (r + 1) = -(j : ℤ) := by
        rw [show f32expAux m j (r + 1)
            = if (2 : ℚ) ^ (-(j : ℤ)) ≤ m then -(j : ℤ) else f32expAux m (j + 1) r
          from rfl, if_pos hcase]
      rw [hval]
      refine ⟨by omega, by omega, ?_⟩
      calc m ≤ (2 : ℚ) ^ (1 - (j : ℤ)) := hle
        _ = (2 : ℚ) ^ (-(j : ℤ) + 1) := by
            congr 1
            ring
    · have hval : f32expAux m j (r + 1) = f32expAux m (j + 1) r := by
        rw [show f32expAux m j (r + 1)
            = if (2 : ℚ) ^ (-(j : ℤ)) ≤ m then -(j : ℤ) else f32expAux m (j + 1) r
          from rfl, if_neg hcase]
      rw [hval]
      refine ih (j + 1) (by omega) ?_
      have hlt : m < (2 : ℚ) ^ (-(j : ℤ)) := lt_of_not_ge hcase
      calc m ≤ (2 : ℚ) ^ (-(j : ℤ)) := le_of_lt hlt
        _ = (2 : ℚ) ^ (1 - ((j + 1 : ℕ) : ℤ)) := by
            congr 1
            push_cast
            ring

theorem f32exp_spec (m : ℚ) (h1 : m ≤ 1) :
    -126 ≤ f32exp m ∧ f32exp m ≤ 0 ∧ m ≤ (2 : ℚ) ^ (f32exp m + 1) := by
  refine f32expAux_spec m 127 0 rfl ?_
  have h2 : (2 : ℚ) ^ (1 - ((0 : ℕ) : ℤ)) = 2 := by norm_num
  rw [h2]
  linarith

theorem abs_clip1_le (q : ℚ) : |clip1 q| ≤ 1 := by
  rw [abs_le]
  constructor
  · exact le_min (by norm_num) (le_max_left _ _)
  · exact min_le_left _ _

theorem toF32bits_lt (q : ℚ) (hq : |q| ≤ 1) : toF32bits q < 2 ^ 32 := by
  by_cases hq0 : q = 0
  · simp [toF32bits, hq0]
  simp only [toF32bits, if_neg hq0]
  obtain ⟨he1, he2, he3⟩ := f32exp_spec |q| hq
  have hs : (if q < 0 then (1 : ℕ) else 0) ≤ 1 := by split <;> omega
  have hmant0 : 0 ≤ roundHalfEven (|q| * (2 : ℚ) ^ ((23 : ℤ) - f32exp |q|)) := by
    refine roundHalfEven_nonneg _ (mul_nonneg (abs_nonneg q) ?_)
    exact le_of_lt (zpow_pos (by norm_num) _)
  have hmantle : roundHalfEven (|q| * (2 : ℚ) ^ ((23 : ℤ) - f32exp |q|)) ≤ 2 ^ 24 := by
    refine roundHalfEven_le _ (2 ^ 24) ?_
    calc |q| * (2 : ℚ) ^ ((23 : ℤ) - f32exp |q|)
        ≤ (2 : ℚ) ^ (f32exp |q| + 1) * (2 : ℚ) ^ ((23 : ℤ) - f32exp |q|) := by
          exact mul_le_mul_of_nonneg_right he3 (le_of_lt (zpow_pos (by norm_num) _))
      _ = (2 : ℚ) ^ ((f32exp |q| + 1) + ((23 : ℤ) - f32exp |q|)) :=
          (zpow_add₀ (by norm_num) _ _).symm
      _ = (2 : ℚ) ^ ((24 : ℤ)) := by congr 1; ring
      _ = (((2 : ℤ) ^ (24 : ℕ) : ℤ) : ℚ) := by norm_num
  set s : ℕ := if q < 0 then 1 else 0 with hsdef
  set e : ℤ := f32exp |q| with hedef
  set mant : ℤ := roundHalfEven (|q| * (2 : ℚ) ^ ((23 : ℤ) - e)) with hmantdef
  split
  · simp only [Nat.shiftLeft_eq]
    omega
  split
  · rename_i hm23
    simp only [Nat.shiftLeft_eq]
    omega
  split
  · rename_i hm23 hm24
    simp only [Nat.shiftLeft_eq]
    omega
  · simp only [Nat.shiftLeft_eq]
    omega

theorem markerBytes_getD (n i : ℕ) (m1 m2 : Option (List ℚ))
    (hm1 : ∀ l, m1 = some l → l.length = n)
    (hm2 : ∀ l, m2 = some l → l.length = n)
    (hnone : m1 = none → m2 = none) (hi : i < n) :
    (markerBytes n m1 m2).getD i 0 = (mBit m1 i <<< 6) ||| (mBit m2 i <<< 7) := by
  match m1 with
  | none =>
    have h2 := hnone rfl
    subst h2
    simp only [markerBytes, mBit]
    simp [List.getD, List.getElem?_replicate]
    split <;> rfl
  | some l1 =>
    have hi1 : i < l1.length := by rw [hm1 l1 rfl]; exact hi
    match m2 with
    | none =>
      have hlen : ((l1.map fun v => (if truthy v then 1 else 0) <<< 6).map (· % 256)).length
          = l1.length := by simp
      rw [show markerBytes n (some l1) none
          = (l1.map fun v => (if truthy v then 1 else 0) <<< 6).map (· % 256) from rfl]
      rw [List.getD_eq_getElem _ _ (by rw [hlen]; exact hi1)]
      simp only [List.getElem_map]
      rw [show mBit (some l1) i = if truthy (l1.getD i 0) then 1 else 0 from rfl,
        List.getD_eq_getElem _ _ hi1]
      by_cases ht : truthy l1[i] <;> simp [ht, mBit]
    | some l2 =>
      have hi2 : i < l2.length := by rw [hm2 l2 rfl]; exact hi
      have hlen : ((List.zipWith (fun a b => a ||| b)
            (l1.map fun v => (if truthy v then 1 else 0) <<< 6)
            (l2.map fun v => (if truthy v then 1 else 0) <<< 7)).map (· % 256)).length
          = min l1.length l2.length := by simp
      rw [show markerBytes n (some l1) (some l2)
          = (List.zipWith (fun a b => a ||| b)
              (l1.map fun v => (if truthy v then 1 else 0) <<< 6)
              (l2.map fun v => (if truthy v then 1 else 0) <<< 7)).map (· % 256) from rfl]
      rw [List.getD_eq_getElem _ _ (by rw [hlen]; omega)]
      simp only [List.getElem_map, List.getElem_zipWith]
      rw [show mBit (some l1) i = if truthy (l1.getD i 0) then 1 else 0 from rfl,
        show mBit (some l2) i = if truthy (l2.getD i 0) then 1 else 0 from rfl,
        List.getD_eq_getElem _ _ hi1, List.getD_eq_getElem _ _ hi2]
      by_cases h1 : truthy l1[i] <;> by_cases h2 : truthy l2[i] <;>
        simp [h1, h2]

/-- C9: the two-dimensional role resolution tests the shapes in the fixed
order (1,n), (n,1), (2,n), (n,2), (3,n), (n,3): a 2 x 3 array is read
row-wise as samples plus one marker row, a 3 x 2 array is read column-wise
as samples plus one marker column because width 2 is tested before height 3,
and an array in which neither dimension is 1, 2 or 3 gets no role at all. -/
theorem resolve_roles_shape_order (b : Bool) (f g : ℕ → ℕ → ℚ) (r c : ℕ)
    (hr : r ≠ 1 ∧ r ≠ 2 ∧ r ≠ 3) (hc : c ≠ 1 ∧ c ≠ 2 ∧ c ≠ 3) :
    resolveRoles (.nd2 b 2 3 f) = .ok (some (ndRow 3 f 0), some (ndRow 3 f 1), none, b) ∧
    resolveRoles (.nd2 b 3 2 g) = .ok (some (ndCol 3 g 0), some (ndCol 3 g 1), none, b) ∧
    resolveRoles (.nd2 b r c f) = .ok (none, none, none, b) := by
  refine ⟨rfl, rfl, ?_⟩
  simp [resolveRoles, hr.1, hr.2.1, hr.2.2, hc.1, hc.2.1, hc.2.2]

/-- C9 witness: a 4 x 5 array fits none of the six shape rules. -/
theorem resolve_roles_shape_order_witness :
    ((4 : ℕ) ≠ 1 ∧ (4 : ℕ) ≠ 2 ∧ (4 : ℕ) ≠ 3) ∧
    ((5 : ℕ) ≠ 1 ∧ (5 : ℕ) ≠ 2 ∧ (5 : ℕ) ≠ 3) ∧
    (resolveRoles (.nd2 true 2 3 fun _ _ => 1)
       = .ok (some (ndRow 3 (fun _ _ => 1) 0), some (ndRow 3 (fun _ _ => 1) 1), none, true) ∧
     resolveRoles (.nd2 true 3 2 fun _ _ => 0)
       = .ok (some (ndCol 3 (fun _ _ => 0) 0), some (ndCol 3 (fun _ _ => 0) 1), none, true) ∧
     resolveRoles (.nd2 true 4 5 fun _ _ => 1) = .ok (none, none, none, true)) :=
  ⟨by decide, by decide,
   resolve_roles_shape_order true (fun _ _ => 1) (fun _ _ => 0) 4 5 (by decide) (by decide)⟩

/-- C3: in the encoded payload the control byte of sample i equals
(m1 shifted left 6) bitwise-or (m2 shifted left 7), where m1 and m2 are the
booleanized marker bits at index i, taken as 0 when the marker stream is
absent (marker-2 can only be present when marker-1 is, as in every path of
_arbitrary_waveform_create). -/
theorem control_byte_layout (y : List ℚ) (m1 m2 : Option (List ℚ))
    (hm1 : ∀ l, m1 = some l → l.length = y.length)
    (hm2 : ∀ l, m2 = some l → l.length = y.length)
    (hnone : m1 = none → m2 = none) (i : ℕ) (hi : i < y.length) :
    (encodeReal y m1 m2).getD (5 * i + 4) 0
      = (mBit m1 i <<< 6) ||| (mBit m2 i <<< 7) := by
  rw [encodeReal_eq_interleave5 y m1 m2 hm1 hm2]
  have hcs : (floatChunks (y.map clip1)).length = y.length := by
    rw [floatChunks_length, List.length_map]
  rw [interleave5_getD_marker (floatChunks (y.map clip1)) (markerBytes y.length m1 m2) i
    (floatChunks_chunk_length _)
    (by rw [markerBytes_length y.length m1 m2 hm1 hm2, hcs]) (by rw [hcs]; exact hi)]
  exact markerBytes_getD y.length i m1 m2 hm1 hm2 hnone hi

/-- C3 witness: marker1 true and marker2 false at index 0 give control byte
0x40, and without markers the control byte is 0. -/
theorem control_byte_layout_witness :
    (∀ l, (some [(1 : ℚ), 0] : Option (List ℚ)) = some l → l.length = 2) ∧
    (∀ l, (some [(0 : ℚ), 1] : Option (List ℚ)) = some l → l.length = 2) ∧
    (encodeReal [(1 : ℚ), 0] (some [(1 : ℚ), 0]) (some [(0 : ℚ), 1])).getD 4 0 = 64 ∧
    (encodeReal [(1 : ℚ), 0] none none).getD 4 0 = 0 := by
  refine ⟨?_, ?_, ?_, ?_⟩
  · intro l hl; cases hl; rfl
  · intro l hl; cases hl; rfl
  · have h := control_byte_layout [(1 : ℚ), 0] (some [(1 : ℚ), 0]) (some [(0 : ℚ), 1])
      (by intro l hl; cases hl; rfl) (by intro l hl; cases hl; rfl)
      (by intro h2; cases h2) 0 (by decide)
    rw [show (5 * 0 + 4 : ℕ) = 4 from rfl] at h
    rw [h]
    decide
  · have h := control_byte_layout [(1 : ℚ), 0] none none
      (by intro l hl; cases hl) (by intro l hl; cases hl)
      (by intro _; rfl) 0 (by decide)
    rw [show (5 * 0 + 4 : ℕ) = 4 from rfl] at h
    rw [h]
    decide

/-- C1: for every accepted real sample sequence (length a multiple of the
quantum and within the size bounds) with optional equal-length marker
streams, the payload is 5 bytes per sample in sample order; the 4 bytes at
offset 5i are the little-endian IEEE-754 binary32 encoding of sample i
clipped to [-1, 1], decoding to the float32 rounding of the clipped sample;
stripping the control bytes and reading the floats recovers the clipped
input to float32 precision. -/
theorem encode_real_layout (y : List ℚ) (m1 m2 : Option (List ℚ))
    (q mn mx : ℕ)
    (hm1 : ∀ l, m1 = some l → l.length = y.length)
    (hm2 : ∀ l, m2 = some l → l.length = y.length)
    (_hq : y.length % q = 0) (_hmn : mn ≤ y.length) (_hmx : y.length ≤ mx) :
    (encodeReal y m1 m2).length = 5 * y.length ∧
    (∀ i, i < y.length →
      pySlice (encodeReal y m1 m2) (5 * i) (5 * i + 4)
        = leBytes4 (toF32bits (clip1 (y.getD i 0))) ∧
      decodeF32 (byteWord (pySlice (encodeReal y m1 m2) (5 * i) (5 * i + 4)))
        = f32val (clip1 (y.getD i 0))) ∧
    deinterleave (encodeReal y m1 m2) = y.map fun s => f32val (clip1 s) := by
  have hbridge := encodeReal_eq_interleave5 y m1 m2 hm1 hm2
  have hcs : (floatChunks (y.map clip1)).length = y.length := by
    rw [floatChunks_length, List.length_map]
  have hchunks := floatChunks_chunk_length (y.map clip1)
  have hmk : (markerBytes y.length m1 m2).length = (floatChunks (y.map clip1)).length := by
    rw [markerBytes_length y.length m1 m2 hm1 hm2, hcs]
  refine ⟨?_, ?_, ?_⟩
  · rw [hbridge, interleave5_length _ _ hchunks hmk, hcs]
  · intro i hi
    have hslice := interleave5_slice (floatChunks (y.map clip1))
      (markerBytes y.length m1 m2) i hchunks hmk (by rw [hcs]; exact hi)
    have hget : (floatChunks (y.map clip1)).getD i []
        = leBytes4 (toF32bits (clip1 (y.getD i 0))) := by
      rw [List.getD_eq_getElem _ _ (by rw [hcs]; exact hi)]
      simp only [floatChunks, List.getElem_map]
      rw [List.getD_eq_getElem _ _ hi]
    have h1 : pySlice (encodeReal y m1 m2) (5 * i) (5 * i + 4)
        = leBytes4 (toF32bits (clip1 (y.getD i 0))) := by
      rw [hbridge, hslice, hget]
    refine ⟨h1, ?_⟩
    rw [h1, byteWord_leBytes4 _ (toF32bits_lt _ (abs_clip1_le _))]
    rfl
  · rw [hbridge]
    have hcseq : floatChunks (y.map clip1) = ((y.map clip1).map toF32bits).map leBytes4 := by
      simp [floatChunks, List.map_map]
    rw [hcseq]
    rw [deinterleave_interleave5 ((y.map clip1).map toF32bits) (markerBytes y.length m1 m2)
      ?_ ?_]
    · simp only [List.map_map]
      rfl
    · intro w hw
      simp only [List.map_map, List.mem_map] at hw
      obtain ⟨s, _, rfl⟩ := hw
      exact toF32bits_lt _ (abs_clip1_le _)
    · rw [markerBytes_length y.length m1 m2 hm1 hm2]
      simp

/-- C1 witness: three samples (one of them out of range, clipped), one
marker stream, quantum 1 and the driver size bounds. -/
theorem encode_real_layout_witness :
    (∀ l, (some [(1 : ℚ), 0, -2] : Option (List ℚ)) = some l → l.length = 3) ∧
    (∀ l, (none : Option (List ℚ)) = some l → l.length = 3) ∧
    ([(1 : ℚ), 0, -2].length % 1 = 0) ∧ (1 ≤ [(1 : ℚ), 0, -2].length) ∧
    ([(1 : ℚ), 0, -2].length ≤ 16 * 1024 * 1024) ∧
    ((encodeReal [(1 : ℚ), 0, -2] (some [(1 : ℚ), 0, -2]) none).length = 5 * 3 ∧
     (∀ i, i < [(1 : ℚ), 0, -2].length →
       pySlice (encodeReal [(1 : ℚ), 0, -2] (some [(1 : ℚ), 0, -2]) none) (5 * i) (5 * i + 4)
         = leBytes4 (toF32bits (clip1 ([(1 : ℚ), 0, -2].getD i 0))) ∧
       decodeF32 (byteWord (pySlice (encodeReal [(1 : ℚ), 0, -2]
           (some [(1 : ℚ), 0, -2]) none) (5 * i) (5 * i + 4)))
         = f32val (clip1 ([(1 : ℚ), 0, -2].getD i 0))) ∧
     deinterleave (encodeReal [(1 : ℚ), 0, -2] (some [(1 : ℚ), 0, -2]) none)
       = [(1 : ℚ), 0, -2].map fun s => f32val (clip1 s)) := by
  refine ⟨?_, ?_, by decide, by decide, by decide, ?_⟩
  · intro l hl; cases hl; rfl
  · intro l hl; cases hl
  · have h := encode_real_layout [(1 : ℚ), 0, -2] (some [(1 : ℚ), 0, -2]) none
      1 1 (16 * 1024 * 1024)
      (by intro l hl; cases hl; rfl) (by intro l hl; cases hl)
      (by decide) (by decide) (by decide)
    simpa using h

end PyIvi
